import Mathlib

/-!
Verification development for the clock-correction-file subsystem
(`src/pint/observatory/clock_file.py`).

The Python source is shallowly embedded: text lines become `List Char`
(the content of a line, without its trailing newline), IEEE floats become
exact rationals `ℚ` (all arithmetic the claims are about is modelled as
exact real arithmetic), numpy arrays become `List ℚ`, and every operation
that can raise a Python exception returns `Except PyErr _`.
All clock correction values are carried in microseconds, mirroring the
normalisation that astropy units perform in the source (the ``u.s`` /
``u.us`` conversions are exact scalings, the identity in this model).
-/

namespace PintClock

/-- Characters treated as whitespace by Python `str.strip`, `str.split`
and `float()` (ASCII fragment). -/
def isSpace (c : Char) : Bool :=
  c = ' ' ∨ c = '\t' ∨ c = '\n' ∨ c = '\r' ∨ c = Char.ofNat 11 ∨ c = Char.ofNat 12

/-- `l.startswith(p)` on a Python string. -/
def beginsWith : List Char → List Char → Bool
  | _, [] => true
  | [], _ :: _ => false
  | c :: l, p :: ps => c = p && beginsWith l ps

/-- Python `str.rstrip()`. -/
def rstrip (cs : List Char) : List Char :=
  (cs.reverse.dropWhile isSpace).reverse

/-- Python `str.strip()`. -/
def pyStrip (cs : List Char) : List Char :=
  rstrip (cs.dropWhile isSpace)

/-- Python `str.split()` (no argument): split on runs of whitespace,
dropping empty fields. `acc` accumulates the current word reversed. -/
def pySplitAux : List Char → List Char → List (List Char)
  | [], acc => if acc.isEmpty then [] else [acc.reverse]
  | c :: r, acc =>
    if isSpace c then
      if acc.isEmpty then pySplitAux r [] else acc.reverse :: pySplitAux r []
    else pySplitAux r (c :: acc)

def pySplit (cs : List Char) : List (List Char) :=
  pySplitAux cs []

/-- Value of a list of decimal digit characters. -/
def digitsToNat (ds : List Char) : ℕ :=
  ds.foldl (fun a c => 10 * a + (c.toNat - '0'.toNat)) 0

/-- Split a leading run of decimal digits from the rest. -/
def takeDigits (cs : List Char) : List Char × List Char :=
  (cs.takeWhile (·.isDigit), cs.dropWhile (·.isDigit))

/-- The rational value of a decimal digit character. -/
def digitVal (c : Char) : ℚ :=
  match c with
  | '1' => 1
  | '2' => 2
  | '3' => 3
  | '4' => 4
  | '5' => 5
  | '6' => 6
  | '7' => 7
  | '8' => 8
  | '9' => 9
  | _ => 0

/-- The value of an integer-part digit string, as a rational. -/
def intVal (ds : List Char) : ℚ :=
  ds.foldl (fun a c => 10 * a + digitVal c) 0

/-- The value of a fractional-part digit string `d₁d₂…` as the rational
`0.d₁d₂…`. -/
def fracVal (ds : List Char) : ℚ :=
  ds.foldr (fun c acc => (digitVal c + acc) / 10) 0

/-- Model of Python `float(s)` on the finite-decimal fragment the clock
files use: optional surrounding whitespace, optional sign, digits with an
optional decimal point (at least one digit overall), and an optional
`e`/`E` exponent.  Returns `none` where `float()` raises `ValueError`
(Fortran `d`/`D` exponents, empty or malformed fields).  The value is the
exact rational the decimal literal denotes. -/
def parseFloat? (s : List Char) : Option ℚ :=
  let cs := pyStrip s
  let (sgn, cs) : ℚ × List Char :=
    match cs with
    | '-' :: r => (-1, r)
    | '+' :: r => (1, r)
    | r => (1, r)
  let (ip, cs) := takeDigits cs
  let (fp, cs) : List Char × List Char :=
    match cs with
    | '.' :: r => takeDigits r
    | r => ([], r)
  if ip.isEmpty ∧ fp.isEmpty then none
  else
    let mantissa : ℚ := intVal ip + fracVal fp
    match cs with
    | [] => some (sgn * mantissa)
    | e :: r =>
      if e = 'e' ∨ e = 'E' then
        let (esgn, r) : ℤ × List Char :=
          match r with
          | '-' :: r2 => (-1, r2)
          | '+' :: r2 => (1, r2)
          | r2 => (1, r2)
        let (ed, r) := takeDigits r
        if ed.isEmpty ∨ ¬ r.isEmpty then none
        else some (sgn * mantissa * (10 : ℚ) ^ (esgn * (digitsToNat ed : ℤ)))
      else none

/-- The Python exceptions the module can raise, one constructor per
distinct raise site / builtin exception class. -/
inductive PyErr
  /-- `ValueError`: a format header does not match its required pattern. -/
  | malformedHeader
  /-- `NotImplementedError`: TEMPO `INCLUDE` directive. -/
  | notImplemented
  /-- `TypeError`: slicing a scalar (`mjd[:-1]` on a float). -/
  | typeError
  /-- `ValueError` escaping from `float()`. -/
  | valueError
  /-- `ValueError`: unregistered clock file format name in `read`. -/
  | unknownFormat
  /-- `ValueError`: MJDs out of order after parsing, raised by `read`. -/
  | outOfOrder
  /-- `RuntimeError`: no data points in the clock file (evaluate, limits="error"). -/
  | emptySeries
  /-- `RuntimeError`: data points out of range (evaluate, limits="error"). -/
  | outOfRange
  /-- `IndexError`: numpy assignment or indexing out of bounds. -/
  | indexError
  /-- `ValueError`: mismatched array lengths in `ConstructedClockFile`,
  or `max`/`np.concatenate` over an empty sequence in `merge`. -/
  | valueErrorEmptyOrMismatch
  /-- `ValueError`: invalid TEMPO obscode in `write_tempo_clock_file`. -/
  | invalidSite
deriving DecidableEq, Repr

/-- The data model: a clock correction series as held by a `ClockFile`
object.  `time` is the list `self._time.mjd` (MJDs), `clock` the list
`self._clock` expressed in microseconds.  `comments` has one optional
entry per sample (the TEMPO parser first appends a `None` placeholder),
`leadingComment` is the comment block before the first sample. -/
structure ClockFile where
  time : List ℚ
  clock : List ℚ
  comments : List (Option (List Char))
  leadingComment : Option (List Char)
deriving DecidableEq, Repr

/-- The `limits` argument of `ClockFile.evaluate`. -/
inductive Limits
  | warn
  | error
deriving DecidableEq, Repr

/-- `np.interp(x, xp, fp)` for nonempty `xp` sorted non-decreasing:
with `j` the number of entries of `xp` that are `≤ x`, the result is
`fp[0]` for `x` below every sample, `fp[len-1]` for `x` at or beyond the
last sample, and otherwise the linear interpolation between samples
`j-1` and `j`.  (Where `x` equals a duplicated abscissa, `j-1` is the
later duplicate, so the right-hand value is returned, as numpy does.) -/
def interpAt (xp fp : List ℚ) (x : ℚ) : ℚ :=
  let j := xp.countP (fun a => decide (a ≤ x))
  if j = 0 then fp.headD 0
  else if j = xp.length then fp.getD (xp.length - 1) 0
  else
    fp.getD (j - 1) 0 +
      (fp.getD j 0 - fp.getD (j - 1) 0) * (x - xp.getD (j - 1) 0) /
        (xp.getD j 0 - xp.getD (j - 1) 0)

/-- `ClockFile.evaluate(t, limits)`: the empty-series check comes first
(returning zero corrections under "warn", raising under "error"), then
the out-of-range check (`np.any(t < time[0]) or np.any(t > time[-1])`),
then `np.interp` over the samples.  Results are in microseconds. -/
def evaluate (c : ClockFile) (ts : List ℚ) (limits : Limits) : Except PyErr (List ℚ) :=
  if c.time.isEmpty then
    match limits with
    | .warn => .ok (ts.map fun _ => 0)
    | .error => .error .emptySeries
  else if ts.any (fun t => decide (t < c.time.headD 0)) ||
      ts.any (fun t => decide (c.time.getLastD 0 < t)) then
    match limits with
    | .warn => .ok (ts.map (interpAt c.time c.clock))
    | .error => .error .outOfRange
  else
    .ok (ts.map (interpAt c.time c.clock))

/-- `ClockFile.last_correction_mjd`: final timestamp, or negative
"infinity" if the series is empty.  The `-np.inf` sentinel is modelled as
`none` (ℚ has no infinities); every finite timestamp maps to `some`. -/
def lastCorrectionMjd (c : ClockFile) : Option ℚ :=
  match c.time.getLast? with
  | none => none
  | some m => some m

/-- The two lines of `tempo_standard_header`. -/
def tempoHeaderLine1 : List Char :=
  "   MJD       EECO-REF    NIST-REF NS      DATE    COMMENTS".toList

def tempoHeaderLine2 : List Char :=
  "=========    ========    ======== ==    ========  ========".toList

/-- `tempo_standard_header.split("\n")[seen_header].split()` for
`seen_header < 2` (the only values at which the source indexes it). -/
def headerTokens : ℕ → List (List Char)
  | 0 => pySplit tempoHeaderLine1
  | _ => pySplit tempoHeaderLine2

/-- Parser state of `TempoClockFile.__init__`'s line loop: the
`seen_header` counter and the `mjds`, `clkcorrs`, `self.comments`,
`self.leading_comment` accumulators. -/
structure TempoState where
  seenHeader : ℕ
  mjds : List ℚ
  clkcorrs : List ℚ
  comments : List (Option (List Char))
  leadingComment : Option (List Char)
deriving DecidableEq, Repr

def initTempoState : TempoState :=
  ⟨0, [], [], [], none⟩

/-- The TEMPO parser's `add_comment` closure: extend the last comment
slot if any exists (filling a `None` placeholder first), otherwise the
leading comment. -/
def TempoState.addComment (st : TempoState) (s : List Char) : TempoState :=
  match st.comments.getLast? with
  | some none => { st with comments := st.comments.dropLast ++ [some (rstrip s)] }
  | some (some c) => { st with comments := st.comments.dropLast ++ [some (c ++ '\n' :: rstrip s)] }
  | none =>
    match st.leadingComment with
    | none => { st with leadingComment := some (rstrip s) }
    | some lc => { st with leadingComment := some (lc ++ '\n' :: rstrip s) }

/-- One iteration of the TEMPO parser's line loop, translated clause by
clause from the source: `#` comment lines; the two-line standard header
check (`ValueError` on mismatch); `INCLUDE` (raises
`NotImplementedError` before anything else is done with the line); the
fixed-column fields `l[0:9]` (MJD, demoted to `None` unless it is `0` or
lies in the closed interval `[39000, 100000]`, since the source tests
`(mjd < 39000 and mjd != 0) or mjd > 100000`), `l[9:21]` and `l[21:33]`
(the two correction fields), `l[34]` (site code, `None` past the end of
the line); the site filter (skip, producing no sample and no comment);
demotion to a comment if the MJD or both correction fields failed to
parse; the `> 800.0 ⇒ -= 818.8` legacy adjustment of the first field;
and finally appending the sample `clkcorr2 - clkcorr1` with a `None`
comment placeholder that `add_comment(l[50:])` immediately fills. -/
def tempoStep (obscode : Option Char) (st : TempoState) (l : List Char) :
    Except PyErr TempoState :=
  if beginsWith l "#".toList then .ok (st.addComment l)
  else if st.seenHeader < 2 then
    if (pySplit l).map (List.map Char.toUpper) ≠ headerTokens st.seenHeader then
      .error .malformedHeader
    else .ok { st with seenHeader := st.seenHeader + 1 }
  else if beginsWith l "INCLUDE".toList then .error .notImplemented
  else
    let mjd? : Option ℚ :=
      match parseFloat? (l.take 9) with
      | some m => if (m < 39000 ∧ m ≠ 0) ∨ m > 100000 then none else some m
      | none => none
    let c1? := parseFloat? ((l.drop 9).take 12)
    let c2? := parseFloat? ((l.drop 21).take 12)
    let csite? : Option Char := (l.get? 34).map Char.toLower
    let skip : Bool :=
      match obscode with
      | some oc => decide (some oc.toLower ≠ csite?)
      | none => false
    if skip then .ok st
    else
      match mjd? with
      | none => .ok (st.addComment l)
      | some mjd =>
        if c1? = none ∧ c2? = none then .ok (st.addComment l)
        else
          let c1 := c1?.getD 0
          let c2 := c2?.getD 0
          let c1 := if c1 > 800 then c1 - (818.8 : ℚ) else c1
          .ok (({ st with
              mjds := st.mjds ++ [mjd],
              clkcorrs := st.clkcorrs ++ [c2 - c1],
              comments := st.comments ++ [none] } : TempoState).addComment (l.drop 50))

/-- The TEMPO parser's whole line loop. -/
def tempoFold (obscode : Option Char) (lines : List (List Char)) :
    Except PyErr TempoState :=
  lines.foldlM (tempoStep obscode) initTempoState

/-- `while len(mjds) and mjds[0] == 0:` strip leading sentinel samples
(the comment lists are left untouched, as in the source). -/
def stripZeros : List ℚ → List ℚ → List ℚ × List ℚ
  | [], cs => ([], cs)
  | m :: ms, cs => if m = 0 then stripZeros ms (cs.drop 1) else (m :: ms, cs)

/-- `TempoClockFile.__init__` for an existing file whose lines are
given: run the line loop, apply the `bogus_last_correction` step, strip
leading zero-MJD samples, and build the series.  When
`bogus_last_correction` is true and at least one sample was parsed, the
source executes `mjd = mjd[:-1]` where `mjd` is the line loop's scalar
variable (a float, or `None`), not the list `mjds`; slicing a scalar
raises `TypeError` unconditionally, which this model reflects. -/
def parseTempo (obscode : Option Char) (bogus : Bool) (lines : List (List Char)) :
    Except PyErr ClockFile :=
  match tempoFold obscode lines with
  | .error e => .error e
  | .ok st =>
    if bogus ∧ st.mjds ≠ [] then .error .typeError
    else
      let (ms, cs) := stripZeros st.mjds st.clkcorrs
      .ok ⟨ms, cs, st.comments, st.leadingComment⟩

/-- One floating-point token of `Tempo2ClockFile.clkcorr_re`:
`[-+]?(?:\d+(?:\.\d*)?|\.\d+)(?:[eEdD][-+]?\d+)?`.  `expTail` attaches
the optional exponent group, backtracking (returning the mantissa alone)
when no digits follow the exponent letter, as the regex engine does. -/
def expTail (tok : List Char) (cs : List Char) : List Char × List Char :=
  match cs with
  | [] => (tok, [])
  | e :: r =>
    if e = 'e' ∨ e = 'E' ∨ e = 'd' ∨ e = 'D' then
      let (sg, r2) : List Char × List Char :=
        match r with
        | c :: rr => if c = '+' ∨ c = '-' then ([c], rr) else ([], r)
        | [] => ([], [])
      let (ds, r3) := takeDigits r2
      if ds.isEmpty then (tok, cs) else (tok ++ e :: (sg ++ ds), r3)
    else (tok, cs)

def floatToken (cs : List Char) : Option (List Char × List Char) :=
  let (sgn, cs1) : List Char × List Char :=
    match cs with
    | c :: r => if c = '+' ∨ c = '-' then ([c], r) else ([], cs)
    | [] => ([], [])
  let (ip, cs2) := takeDigits cs1
  if ip.isEmpty then
    match cs2 with
    | '.' :: r =>
      let (fp, cs3) := takeDigits r
      if fp.isEmpty then none else some (expTail (sgn ++ '.' :: fp) cs3)
    | _ => none
  else
    match cs2 with
    | '.' :: r =>
      let (fp, cs3) := takeDigits r
      some (expTail (sgn ++ ip ++ '.' :: fp) cs3)
    | _ => some (expTail (sgn ++ ip) cs2)

/-- `re.match` of `clkcorr_re` (`\s*(F)\s+(F)(.*)`): the two float
tokens and the trailing group, or `none` if the line does not scan. -/
def clkcorrMatch (l : List Char) : Option (List Char × List Char × List Char) :=
  match floatToken (l.dropWhile isSpace) with
  | none => none
  | some (t1, r1) =>
    match r1 with
    | [] => none
    | c :: _ =>
      if isSpace c then
        match floatToken (r1.dropWhile isSpace) with
        | none => none
        | some (t2, r3) => some (t1, t2, r3)
      else none

/-- `re.match` of `hdrline_re` (`#\s*(\S+)\s+(\S+)\s+(\d+)?(.*)`) on the
header line: the two timescale tokens and the optional badness integer.
In the source the header line retains its trailing newline (from
`f.readline()`), which satisfies the `\s+` after the second token; lines
are modelled without the newline here, so end-of-line is accepted in its
place. -/
def hdrMatch (l : List Char) : Option (List Char × List Char × Option ℕ) :=
  match l with
  | '#' :: r =>
    let r1 := r.dropWhile isSpace
    let g1 := r1.takeWhile (fun c => ¬ isSpace c)
    let r2 := r1.dropWhile (fun c => ¬ isSpace c)
    if g1.isEmpty then none
    else
      match r2 with
      | [] => none
      | _ :: _ =>
        let r3 := r2.dropWhile isSpace
        let g2 := r3.takeWhile (fun c => ¬ isSpace c)
        let r4 := r3.dropWhile (fun c => ¬ isSpace c)
        if g2.isEmpty then none
        else
          match r4 with
          | [] => some (g1, g2, none)
          | _ :: _ =>
            let r5 := r4.dropWhile isSpace
            let (ds, _) := takeDigits r5
            some (g1, g2, if ds.isEmpty then none else some (digitsToNat ds))
  | _ => none

/-- Accumulator of `Tempo2ClockFile.__init__`: sample lists plus the
comment state.  `self.comments` starts empty and, since the TEMPO2 loop
never appends a per-sample placeholder, `add_comment` only ever extends
`self.leading_comment` (which starts as the empty string); the model
keeps the same shape. -/
structure T2State where
  mjds : List ℚ
  clks : List ℚ
  leadingComment : List Char
deriving DecidableEq, Repr

def T2State.addComment (st : T2State) (s : List Char) : T2State :=
  { st with leadingComment := st.leadingComment ++ '\n' :: pyStrip s }

/-- One iteration of the TEMPO2 data-line loop: `#` lines and lines that
do not scan as two floats become comments; otherwise
`float(m.group(1))`/`float(m.group(2))` are appended (a `ValueError`
from `float` — e.g. a Fortran `d` exponent accepted by the regex —
propagates out of the constructor), and the trailing group becomes a
comment. -/
def t2Step (st : T2State) (l : List Char) : Except PyErr T2State :=
  if beginsWith l "#".toList then .ok (st.addComment l)
  else
    match clkcorrMatch l with
    | none => .ok (st.addComment l)
    | some (t1, t2, rest) =>
      match parseFloat? t1 with
      | none => .error .valueError
      | some m =>
        match parseFloat? t2 with
        | none => .error .valueError
        | some v => .ok { (st.addComment rest) with mjds := st.mjds ++ [m], clks := st.clks ++ [v] }

/-- `Tempo2ClockFile.__init__` for an existing file: header match
(`ValueError` on failure, including an empty file whose `readline()`
yields the empty string), the data-line loop, the
`bogus_last_correction` step (here `mjd` genuinely is the list, so the
last sample is dropped), leading-zero stripping, and unit normalisation
(`self._clock = clk * u.s`; this model stores microseconds, an exact
factor of 10^6). -/
def parseTempo2 (bogus : Bool) (lines : List (List Char)) : Except PyErr ClockFile :=
  match lines with
  | [] => .error .malformedHeader
  | hdr :: rest =>
    match hdrMatch hdr with
    | none => .error .malformedHeader
    | some _ =>
      match rest.foldlM t2Step ⟨[], [], []⟩ with
      | .error e => .error e
      | .ok st =>
        let (ms0, cs0) :=
          if bogus ∧ ¬ st.mjds.isEmpty then (st.mjds.dropLast, st.clks.dropLast)
          else (st.mjds, st.clks)
        let (ms, cs) := stripZeros ms0 cs0
        .ok ⟨ms, cs.map (fun v => v * 1000000), [], some st.leadingComment⟩

/-- The format registry built by `ClockFileMeta`: the classes defining a
`format` attribute, i.e. `Tempo2ClockFile` ("tempo2") and
`TempoClockFile` ("tempo"), each applied with its keyword defaults
(`obscode=None`, `bogus_last_correction=False`).
`ConstructedClockFile` sets no format and is not registered. -/
def formatsList : List (String × (List (List Char) → Except PyErr ClockFile)) :=
  [("tempo2", parseTempo2 false), ("tempo", parseTempo none false)]

/-- `np.all(np.diff(mjds) >= 0)`. -/
def nondecr (l : List ℚ) : Bool :=
  (l.zip l.tail).all (fun p => decide (p.1 ≤ p.2))

/-- `ClockFile.read(filename, format)`: dispatch through the registry
(`ValueError` for an unknown format name), then reject a parsed series
whose MJDs are not non-decreasing. -/
def read (format : String) (lines : List (List Char)) : Except PyErr ClockFile :=
  match formatsList.lookup format with
  | none => .error .unknownFormat
  | some p =>
    match p lines with
    | .error e => .error e
    | .ok r => if nondecr r.time then .ok r else .error .outOfOrder

/-- `np.searchsorted(xs, v, side="left")` on a sorted list: the number
of entries strictly below `v`. -/
def countLT (xs : List ℚ) (v : ℚ) : ℕ :=
  xs.countP (fun a => decide (a < v))

/-- `np.searchsorted(xs, v, side="right")` on a sorted list: the number
of entries at or below `v`. -/
def countLE (xs : List ℚ) (v : ℚ) : ℕ :=
  xs.countP (fun a => decide (a ≤ v))

/-- `mjds[:-1][np.diff(mjds) == 0]`: the timestamps at which a series
has a discontinuity (repeated MJD). -/
def discPoints (ts : List ℚ) : List ℚ :=
  ((ts.zip ts.tail).filter (fun p => decide (p.1 = p.2))).map (fun p => p.1)

/-- Strip consecutive duplicates; on a sorted list this is exactly the
deduplication `np.unique` performs after sorting. -/
def dedupAdj : List ℚ → List ℚ
  | [] => []
  | [x] => [x]
  | x :: y :: rest =>
    if x = y then dedupAdj (y :: rest) else x :: dedupAdj (y :: rest)

/-- `np.unique(concatenated mjds)`: sort, then remove duplicates. -/
def uniqueSorted (l : List ℚ) : List ℚ :=
  dedupAdj (l.mergeSort (fun a b => decide (a ≤ b)))

/-- The repeat-count array `r`: ones, then `r[np.searchsorted(mjds, m)] = 2`
for each discontinuity timestamp `m` (each such `m` occurs in the sorted
unique list, so the left search finds its exact index; applying the same
assignment for a timestamp listed more than once is idempotent, so the
set iteration order of the source is immaterial). -/
def applyDiscs (mjds0 : List ℚ) (discs : List ℚ) : List ℕ :=
  discs.foldl (fun r m => r.set (countLT mjds0 m) 2) (List.replicate mjds0.length 1)

/-- `np.repeat(xs, r)`. -/
def repeatCounts : List ℚ → List ℕ → List ℚ
  | [], _ => []
  | _, [] => []
  | x :: xs, k :: ks => List.replicate k x ++ repeatCounts xs ks

/-- The merged breakpoint sequence of `ClockFile.merge`: the sorted
distinct timestamps of all inputs, each discontinuity timestamp doubled. -/
def mergedMjds (clocks : List ClockFile) : List ℚ :=
  let mjds0 := uniqueSorted ((clocks.map (fun c => c.time)).flatten)
  repeatCounts mjds0 (applyDiscs mjds0 ((clocks.map (fun c => discPoints c.time)).flatten))

/-- A single numpy element assignment `xs[i] = v`, `IndexError` out of
range (merge's right-side discontinuity fix can index one past the
end). -/
def setAt (xs : List ℚ) (i : ℕ) (v : ℚ) : Except PyErr (List ℚ) :=
  if i < xs.length then .ok (xs.set i v) else .error .indexError

/-- `np.diff(c._time.mjd) == 0`. -/
def zruns (ts : List ℚ) : List Bool :=
  (ts.zip ts.tail).map (fun p => decide (p.1 = p.2))

/-- Indices of left ends of runs of equal timestamps
(`zl = z.copy(); zl[1:] &= ~z[:-1]`). -/
def ixlList (z : List Bool) : List ℕ :=
  (List.range z.length).filter
    (fun i => z.getD i false && ! (decide (0 < i) && z.getD (i - 1) false))

/-- Indices of right ends of runs of equal timestamps
(`zr = z.copy(); zr[:-1] &= ~z[1:]`). -/
def ixrList (z : List Bool) : List ℕ :=
  (List.range z.length).filter (fun i => z.getD i false && ! z.getD (i + 1) false)

/-- One input's contribution to the merged corrections: interpolate the
input at every output breakpoint (`c.evaluate(times)`, default
`limits="warn"`), then overwrite positions found by
`searchsorted(..., side="left")` with the exact left-side sample values,
then positions found by `searchsorted(..., side="right")` — with no
`- 1` applied — with the exact right-side sample values. -/
def mergeContrib (mjds : List ℚ) (c : ClockFile) : Except PyErr (List ℚ) :=
  match evaluate c mjds .warn with
  | .error e => .error e
  | .ok corr0 =>
    let z := zruns c.time
    match (ixlList z).foldlM
        (fun acc i => setAt acc (countLT mjds (c.time.getD i 0)) (c.clock.getD i 0)) corr0 with
    | .error e => .error e
    | .ok corr1 =>
      (ixrList z).foldlM
        (fun acc i => setAt acc (countLE mjds (c.time.getD i 0)) (c.clock.getD (i + 1) 0)) corr1

def listMax : List ℚ → ℚ
  | [] => 0
  | x :: xs => xs.foldl max x

def listMin : List ℚ → ℚ
  | [] => 0
  | x :: xs => xs.foldl min x

/-- `ClockFile.merge(clocks, trim=...)`.  An empty input list makes
`np.concatenate` raise `ValueError` before anything else; each input's
contribution is summed into the zero-initialised correction array; under
`trim` the output is sliced to
`[searchsorted(times, max starts) : searchsorted(times, min ends, side="right")]`
(an empty input series would make `c._time.mjd[0]` raise `IndexError`
there).  The result is a `ConstructedClockFile` (comments `None`). -/
def mergeClocks (clocks : List ClockFile) (trim : Bool) : Except PyErr ClockFile :=
  if clocks.isEmpty then .error .valueErrorEmptyOrMismatch
  else
    let mjds := mergedMjds clocks
    match clocks.foldlM
        (fun acc c =>
          (match mergeContrib mjds c with
          | .error e => .error e
          | .ok tc => .ok (List.zipWith (fun a b => a + b) acc tc) : Except PyErr (List ℚ)))
        (List.replicate mjds.length (0 : ℚ)) with
    | .error e => .error e
    | .ok corr =>
      if trim then
        if clocks.any (fun c => c.time.isEmpty) then .error .indexError
        else
          let il := countLT mjds (listMax (clocks.map (fun c => c.time.headD 0)))
          let ir := countLE mjds (listMin (clocks.map (fun c => c.time.getLastD 0)))
          .ok ⟨(mjds.take ir).drop il, (corr.take ir).drop il, [], none⟩
      else .ok ⟨mjds, corr, [], none⟩

/-- The obscode validation of `ClockFile.write_tempo_clock_file` (in
this typed model the argument is always a string, so the
`isinstance(obscode, str)` half of the test is vacuous): the source
rejects exactly the strings whose length differs from one. -/
def obscodeCheck (obscode : List Char) : Except PyErr Unit :=
  if obscode.length ≠ 1 then .error .invalidSite else .ok ()

/-- Python `str.isprintable()` on the ASCII fragment: every character is
printable, where the printable ASCII characters are space through tilde
(`0x20`–`0x7e`); control characters such as newline or NUL are not
printable. -/
def pyIsPrintable (s : List Char) : Bool :=
  s.all (fun c => decide (0x20 ≤ c.toNat) && decide (c.toNat ≤ 0x7e))

/-! Concrete inputs used to instantiate the theorems below. -/

/-- A series with one discontinuity at MJD 1 (left value 10, right value
20) and a further breakpoint afterwards. -/
def exA : ClockFile := ⟨[0, 1, 1, 2], [0, 10, 20, 30], [], none⟩

/-- A series whose discontinuity sits at its final timestamp. -/
def exB : ClockFile := ⟨[0, 1, 1], [0, 10, 20], [], none⟩

def exC : ClockFile := ⟨[0, 2, 4], [0, 4, 8], [], none⟩

def exD : ClockFile := ⟨[1, 3], [5, 5], [], none⟩

def exEmpty : ClockFile := ⟨[], [], [], none⟩

def exSmall : ClockFile := ⟨[1, 2], [10, 20], [], none⟩

/-- `merge([exC, exD], trim=True)`. -/
def mergedCD : ClockFile := ⟨[1, 2, 3], [7, 9, 11], [], none⟩

/-- `merge([exC, exD], trim=False)`. -/
def mergedCDFull : ClockFile := ⟨[0, 1, 2, 3, 4], [5, 7, 9, 11, 13], [], none⟩

/-- A TEMPO standard header line 1 (tokens compared case-insensitively,
whitespace-collapsed). -/
def tHdr1 : List Char := " MJD EECO-REF NIST-REF NS DATE COMMENTS".toList

def tHdr2 : List Char := "=========    ========    ======== ==    ========  ========".toList

/-- A TEMPO data line: columns [0:9) = "50000.0  ", [9:21) and [21:33)
the two correction fields. -/
def tLine1 : List Char := ("50000.0  " ++ "         1.0" ++ "         2.0").toList

def tLine2 : List Char := ("49000.0  " ++ "         1.0" ++ "         2.0").toList

/-- First correction field 900.0 (> 800, triggering the legacy offset),
second field 0.0. -/
def tLine900 : List Char := ("50000.0  " ++ "       900.0" ++ "         0.0").toList

/-- MJD field exactly 100000. -/
def tLine100000 : List Char := ("100000.0 " ++ "         1.0" ++ "         2.0").toList

def tLineInclude : List Char := "INCLUDE time_extra.dat".toList

/-- MJD field 100000.5 (just above the upper bound). -/
def tLineBig : List Char := ("100000.5 " ++ "         1.0" ++ "         2.0").toList

/-- MJD field 5.0 (below 39000 and nonzero). -/
def tLineSmall : List Char := ("5.0      " ++ "         1.0" ++ "         2.0").toList

/-- Parser state after consuming the two header lines. -/
def tStateHdr : TempoState := ⟨2, [], [], [], none⟩

/-- The parse of `[tHdr1, tHdr2, tLine1]`. -/
def tFileOk : ClockFile := ⟨[50000], [1], [some []], none⟩


end PintClock

deriving instance DecidableEq for Except

namespace PintClock

/-! Helper lemmas about sorted lists, interpolation and the merged
breakpoint sequence. -/

lemma sorted_head_le {l : List ℚ} (hs : List.Pairwise (· ≤ ·) l) :
    ∀ a ∈ l, l.headD 0 ≤ a := by
  cases l with
  | nil => intro a ha; cases ha
  | cons x xs =>
    intro a ha
    obtain ⟨hx, _⟩ := List.pairwise_cons.mp hs
    rcases List.mem_cons.mp ha with h | h
    · simp [h]
    · simpa using hx a h

lemma getLastD_cons_cons (x y : ℚ) (ys : List ℚ) (d : ℚ) :
    (x :: y :: ys).getLastD d = (y :: ys).getLastD d := by
  simp [List.getLastD]

lemma sorted_le_getLast {l : List ℚ} (hs : List.Pairwise (· ≤ ·) l) :
    ∀ a ∈ l, a ≤ l.getLastD 0 := by
  induction l with
  | nil => intro a ha; cases ha
  | cons x xs ih =>
    intro a ha
    obtain ⟨hx, hp⟩ := List.pairwise_cons.mp hs
    cases xs with
    | nil =>
      rcases List.mem_cons.mp ha with h | h
      · simp [h, List.getLastD]
      · cases h
    | cons y ys =>
      rw [getLastD_cons_cons]
      rcases List.mem_cons.mp ha with h | h
      · subst h
        exact le_trans (hx y (by simp)) (ih hp y (by simp))
      · exact ih hp a h

lemma getD_length_sub_one {l : List ℚ} (h : l ≠ []) :
    l.getD (l.length - 1) 0 = l.getLastD 0 := by
  induction l with
  | nil => exact absurd rfl h
  | cons x xs ih =>
    cases xs with
    | nil => simp [List.getLastD]
    | cons y ys =>
      rw [getLastD_cons_cons]
      have := ih (by simp)
      simpa [List.length_cons] using this

lemma interpAt_left {xp fp : List ℚ} (hs : List.Pairwise (· ≤ ·) xp) {x : ℚ}
    (hx : x < xp.headD 0) : interpAt xp fp x = fp.headD 0 := by
  have h0 : xp.countP (fun a => decide (a ≤ x)) = 0 := by
    rw [List.countP_eq_zero]
    intro a ha
    simp only [decide_eq_true_eq]
    exact not_le.mpr (lt_of_lt_of_le hx (sorted_head_le hs a ha))
  simp [interpAt, h0]

lemma interpAt_right {xp fp : List ℚ} (hs : List.Pairwise (· ≤ ·) xp)
    (hne : xp ≠ []) (hl : fp.length = xp.length) {x : ℚ}
    (hx : xp.getLastD 0 < x) : interpAt xp fp x = fp.getLastD 0 := by
  have hall : xp.countP (fun a => decide (a ≤ x)) = xp.length := by
    rw [List.countP_eq_length]
    intro a ha
    simp only [decide_eq_true_eq]
    exact le_trans (sorted_le_getLast hs a ha) hx.le
  have hpos : xp.length ≠ 0 := by
    intro h
    exact hne (List.length_eq_zero.mp h)
  have hfp : fp ≠ [] := by
    intro h
    rw [h] at hl
    exact hpos (by simpa using hl.symm)
  have hfplen : ¬ fp.length = 0 := by rw [hl]; exact hpos
  rw [interpAt]
  simp only [hall, ← hl, getD_length_sub_one hfp]
  rw [if_neg hfplen]
  exact if_pos trivial

lemma countLE_cons (x : ℚ) (t : List ℚ) (e : ℚ) :
    countLE (x :: t) e = countLE t e + if x ≤ e then 1 else 0 := by
  simp [countLE, List.countP_cons]

lemma countLT_cons (x : ℚ) (t : List ℚ) (b : ℚ) :
    countLT (x :: t) b = countLT t b + if x < b then 1 else 0 := by
  simp [countLT, List.countP_cons]

lemma slice_eq_filter (b e : ℚ) :
    ∀ (xs : List ℚ), List.Pairwise (· ≤ ·) xs →
      (xs.take (countLE xs e)).drop (countLT xs b) =
        xs.filter (fun t => decide (b ≤ t) && decide (t ≤ e)) := by
  intro xs
  induction xs with
  | nil => simp [countLE, countLT]
  | cons x t ih =>
    intro hs
    obtain ⟨hx, hp⟩ := List.pairwise_cons.mp hs
    have iht := ih hp
    by_cases hb : x < b
    · by_cases he : x ≤ e
      · rw [countLE_cons, countLT_cons, if_pos he, if_pos hb]
        simp only [List.take_succ_cons, List.drop_succ_cons, List.filter_cons]
        rw [iht]
        simp [not_le.mpr hb]
      · have h0 : countLE (x :: t) e = 0 := by
          rw [countLE, List.countP_eq_zero]
          intro a ha
          simp only [decide_eq_true_eq]
          rcases List.mem_cons.mp ha with h | h
          · subst h; exact he
          · exact fun hae => he (le_trans (hx a h) hae)
        rw [h0]
        simp only [List.take_zero, List.drop_nil]
        symm
        rw [List.filter_eq_nil_iff]
        intro a ha
        simp only [Bool.and_eq_true, decide_eq_true_eq, not_and]
        intro _
        rcases List.mem_cons.mp ha with h | h
        · subst h; exact he
        · exact fun hae => he (le_trans (hx a h) hae)
    · have hbx : b ≤ x := not_lt.mp hb
      have h2 : countLT (x :: t) b = 0 := by
        rw [countLT, List.countP_eq_zero]
        intro a ha
        simp only [decide_eq_true_eq, not_lt]
        rcases List.mem_cons.mp ha with h | h
        · subst h; exact hbx
        · exact le_trans hbx (hx a h)
      have h3 : countLT t b = 0 := by
        rw [countLT, List.countP_eq_zero]
        intro a ha
        simp only [decide_eq_true_eq, not_lt]
        exact le_trans hbx (hx a ha)
      rw [h2, List.drop_zero]
      by_cases he : x ≤ e
      · rw [countLE_cons, if_pos he, List.take_succ_cons, List.filter_cons,
          if_pos (by simp [hbx, he])]
        rw [h3, List.drop_zero] at iht
        rw [iht]
      · have h0 : countLE (x :: t) e = 0 := by
          rw [countLE, List.countP_eq_zero]
          intro a ha
          simp only [decide_eq_true_eq]
          rcases List.mem_cons.mp ha with h | h
          · subst h; exact he
          · exact fun hae => he (le_trans (hx a h) hae)
        rw [h0, List.take_zero]
        symm
        rw [List.filter_eq_nil_iff]
        intro a ha
        simp only [Bool.and_eq_true, decide_eq_true_eq, not_and]
        intro _
        rcases List.mem_cons.mp ha with h | h
        · subst h; exact he
        · exact fun hae => he (le_trans (hx a h) hae)

lemma pairwise_mergeSortLe (l : List ℚ) :
    List.Pairwise (· ≤ ·) (l.mergeSort (fun a b => decide (a ≤ b))) := by
  have htrans : ∀ a b c : ℚ, (fun a b : ℚ => decide (a ≤ b)) a b = true →
      (fun a b : ℚ => decide (a ≤ b)) b c = true →
      (fun a b : ℚ => decide (a ≤ b)) a c = true := by
    intro a b c hab hbc
    simp only [decide_eq_true_eq] at hab hbc ⊢
    exact le_trans hab hbc
  have htotal : ∀ a b : ℚ, ((fun a b : ℚ => decide (a ≤ b)) a b ||
      (fun a b : ℚ => decide (a ≤ b)) b a) = true := by
    intro a b
    simp only [Bool.or_eq_true, decide_eq_true_eq]
    exact le_total a b
  have h := List.sorted_mergeSort htrans htotal l
  exact h.imp (fun hab => by simpa using hab)

lemma mem_dedupAdj {a : ℚ} : ∀ {l : List ℚ}, a ∈ dedupAdj l ↔ a ∈ l := by
  intro l
  induction l with
  | nil => simp [dedupAdj]
  | cons x xs ih =>
    cases xs with
    | nil => simp [dedupAdj]
    | cons y rest =>
      by_cases hxy : x = y
      · subst hxy
        rw [dedupAdj, if_pos rfl]
        rw [ih]
        simp
      · rw [dedupAdj, if_neg hxy]
        simp only [List.mem_cons] at ih ⊢
        rw [ih]

lemma dedupAdj_pairwise : ∀ {l : List ℚ}, List.Pairwise (· ≤ ·) l →
    List.Pairwise (· ≤ ·) (dedupAdj l) := by
  intro l
  induction l with
  | nil => intro _; simp [dedupAdj]
  | cons x xs ih =>
    intro hp
    obtain ⟨hx, hxs⟩ := List.pairwise_cons.mp hp
    cases xs with
    | nil => simp [dedupAdj]
    | cons y rest =>
      by_cases hxy : x = y
      · rw [dedupAdj, if_pos hxy]
        exact ih hxs
      · rw [dedupAdj, if_neg hxy]
        refine List.pairwise_cons.mpr ⟨?_, ih hxs⟩
        intro b hb
        exact hx b (mem_dedupAdj.mp hb)

lemma mem_repeatCounts {a : ℚ} : ∀ {xs : List ℚ} {ks : List ℕ},
    a ∈ repeatCounts xs ks → a ∈ xs := by
  intro xs
  induction xs with
  | nil => intro ks h; simp [repeatCounts] at h
  | cons x xs ih =>
    intro ks h
    cases ks with
    | nil => simp [repeatCounts] at h
    | cons k ks =>
      rw [repeatCounts] at h
      rcases List.mem_append.mp h with h | h
      · rw [(List.mem_replicate.mp h).2]
        exact List.mem_cons_self x xs
      · exact List.mem_cons_of_mem x (ih h)

lemma mem_repeatCounts_of_mem {a : ℚ} : ∀ {xs : List ℚ} {ks : List ℕ},
    ks.length = xs.length → (∀ k ∈ ks, 0 < k) → a ∈ xs →
    a ∈ repeatCounts xs ks := by
  intro xs
  induction xs with
  | nil => intro ks _ _ h; cases h
  | cons x xs ih =>
    intro ks hlen hpos h
    cases ks with
    | nil => simp at hlen
    | cons k ks =>
      rw [repeatCounts]
      rcases List.mem_cons.mp h with h | h
      · refine List.mem_append.mpr (Or.inl ?_)
        rw [List.mem_replicate]
        exact ⟨(hpos k (by simp)).ne', h⟩
      · refine List.mem_append.mpr (Or.inr ?_)
        exact ih (by simpa using hlen) (fun j hj => hpos j (List.mem_cons_of_mem k hj)) h

lemma repeatCounts_pairwise : ∀ {xs : List ℚ} {ks : List ℕ},
    List.Pairwise (· ≤ ·) xs → List.Pairwise (· ≤ ·) (repeatCounts xs ks) := by
  intro xs
  induction xs with
  | nil => intro ks _; simp [repeatCounts]
  | cons x xs ih =>
    intro ks hp
    obtain ⟨hx, hxs⟩ := List.pairwise_cons.mp hp
    cases ks with
    | nil => simp [repeatCounts]
    | cons k ks =>
      rw [repeatCounts]
      refine List.pairwise_append.mpr ⟨?_, ih hxs, ?_⟩
      · exact List.pairwise_replicate.mpr (Or.inr le_rfl)
      · intro a ha b hb
        rw [(List.mem_replicate.mp ha).2]
        exact hx b (mem_repeatCounts hb)

lemma foldl_set_length (m0 : List ℚ) :
    ∀ (d : List ℚ) (r : List ℕ),
      (d.foldl (fun r m => r.set (countLT m0 m) 2) r).length = r.length := by
  intro d
  induction d with
  | nil => intro r; rfl
  | cons m d ih =>
    intro r
    rw [List.foldl_cons, ih, List.length_set]

lemma foldl_set_pos (m0 : List ℚ) :
    ∀ (d : List ℚ) (r : List ℕ), (∀ k ∈ r, 0 < k) →
      ∀ k ∈ d.foldl (fun r m => r.set (countLT m0 m) 2) r, 0 < k := by
  intro d
  induction d with
  | nil => intro r hr; exact hr
  | cons m d ih =>
    intro r hr
    refine ih (r.set (countLT m0 m) 2) ?_
    intro k hk
    rcases List.mem_or_eq_of_mem_set hk with h | h
    · exact hr k h
    · rw [h]; exact Nat.zero_lt_two

lemma applyDiscs_length (m0 d : List ℚ) : (applyDiscs m0 d).length = m0.length := by
  rw [applyDiscs, foldl_set_length, List.length_replicate]

lemma applyDiscs_pos (m0 d : List ℚ) : ∀ k ∈ applyDiscs m0 d, 0 < k := by
  rw [applyDiscs]
  refine foldl_set_pos m0 d _ ?_
  intro k hk
  rw [(List.mem_replicate.mp hk).2]
  exact Nat.one_pos

lemma mergedMjds_sorted (clocks : List ClockFile) :
    List.Pairwise (· ≤ ·) (mergedMjds clocks) := by
  rw [mergedMjds]
  exact repeatCounts_pairwise (dedupAdj_pairwise (pairwise_mergeSortLe _))

lemma mem_mergedMjds {a : ℚ} (clocks : List ClockFile) :
    a ∈ mergedMjds clocks ↔ ∃ c ∈ clocks, a ∈ c.time := by
  rw [mergedMjds]
  constructor
  · intro h
    have h1 : a ∈ uniqueSorted ((clocks.map (fun c => c.time)).flatten) :=
      mem_repeatCounts h
    rw [uniqueSorted] at h1
    have h2 := List.mem_mergeSort.mp (mem_dedupAdj.mp h1)
    obtain ⟨l, hl, ha⟩ := List.mem_flatten.mp h2
    obtain ⟨c, hc, rfl⟩ := List.mem_map.mp hl
    exact ⟨c, hc, ha⟩
  · intro ⟨c, hc, ha⟩
    refine mem_repeatCounts_of_mem (applyDiscs_length _ _) (applyDiscs_pos _ _) ?_
    rw [uniqueSorted, mem_dedupAdj, List.mem_mergeSort]
    exact List.mem_flatten.mpr ⟨c.time, List.mem_map.mpr ⟨c, hc, rfl⟩, ha⟩

lemma mergeClocks_ok_time (clocks : List ClockFile) (trim : Bool) (s : ClockFile)
    (h : mergeClocks clocks trim = .ok s) :
    s.time = if trim
      then ((mergedMjds clocks).take
              (countLE (mergedMjds clocks)
                (listMin (clocks.map (fun c => c.time.getLastD 0))))).drop
            (countLT (mergedMjds clocks)
              (listMax (clocks.map (fun c => c.time.headD 0))))
      else mergedMjds clocks := by
  rw [mergeClocks] at h
  by_cases hemp : clocks.isEmpty
  · rw [if_pos hemp] at h
    cases h
  · rw [if_neg hemp] at h
    simp only at h
    split at h
    · cases h
    · split at h
      · split at h
        · cases h
        · cases h
          simp [*]
      · cases h
        simp [*]

/-! The character contents of the concrete lines, for use in proofs
(each is definitionally the string literal in the corresponding
definition). -/

lemma tHdr1_chars : tHdr1 = [' ', 'M', 'J', 'D', ' ', 'E', 'E', 'C', 'O', '-', 'R', 'E', 'F', ' ', 'N', 'I', 'S', 'T', '-', 'R', 'E', 'F', ' ', 'N', 'S', ' ', 'D', 'A', 'T', 'E', ' ', 'C', 'O', 'M', 'M', 'E', 'N', 'T', 'S'] := rfl

lemma tLine1_chars : tLine1 = ['5', '0', '0', '0', '0', '.', '0', ' ', ' ', ' ', ' ', ' ', ' ', ' ', ' ', ' ', ' ', ' ', '1', '.', '0', ' ', ' ', ' ', ' ', ' ', ' ', ' ', ' ', ' ', '2', '.', '0'] := rfl

lemma tLine2_chars : tLine2 = ['4', '9', '0', '0', '0', '.', '0', ' ', ' ', ' ', ' ', ' ', ' ', ' ', ' ', ' ', ' ', ' ', '1', '.', '0', ' ', ' ', ' ', ' ', ' ', ' ', ' ', ' ', ' ', '2', '.', '0'] := rfl

lemma tLine900_chars : tLine900 = ['5', '0', '0', '0', '0', '.', '0', ' ', ' ', ' ', ' ', ' ', ' ', ' ', ' ', ' ', '9', '0', '0', '.', '0', ' ', ' ', ' ', ' ', ' ', ' ', ' ', ' ', ' ', '0', '.', '0'] := rfl

lemma tLine100000_chars : tLine100000 = ['1', '0', '0', '0', '0', '0', '.', '0', ' ', ' ', ' ', ' ', ' ', ' ', ' ', ' ', ' ', ' ', '1', '.', '0', ' ', ' ', ' ', ' ', ' ', ' ', ' ', ' ', ' ', '2', '.', '0'] := rfl

lemma tLineBig_chars : tLineBig = ['1', '0', '0', '0', '0', '0', '.', '5', ' ', ' ', ' ', ' ', ' ', ' ', ' ', ' ', ' ', ' ', '1', '.', '0', ' ', ' ', ' ', ' ', ' ', ' ', ' ', ' ', ' ', '2', '.', '0'] := rfl

lemma tLineSmall_chars : tLineSmall = ['5', '.', '0', ' ', ' ', ' ', ' ', ' ', ' ', ' ', ' ', ' ', ' ', ' ', ' ', ' ', ' ', ' ', '1', '.', '0', ' ', ' ', ' ', ' ', ' ', ' ', ' ', ' ', ' ', '2', '.', '0'] := rfl

lemma tLineInclude_chars : tLineInclude = ['I', 'N', 'C', 'L', 'U', 'D', 'E', ' ', 't', 'i', 'm', 'e', '_', 'e', 'x', 't', 'r', 'a', '.', 'd', 'a', 't'] := rfl

/-! Concrete evaluations of the TEMPO parser, built line by line. -/

lemma ok_bind {e a b : Type} {x : a} {f : a → Except e b} :
    (Except.ok x : Except e a) >>= f = f x := rfl

lemma error_bind {e a b : Type} {err : e} {f : a → Except e b} :
    (Except.error err : Except e a) >>= f = Except.error err := rfl

set_option maxRecDepth 2000 in
lemma tempoFold_hdrs : tempoFold none [tHdr1, tHdr2] = .ok tStateHdr := by
  with_unfolding_all decide

lemma tempoFold_append (oc : Option Char) (l1 l2 : List (List Char)) :
    tempoFold oc (l1 ++ l2) =
      (tempoFold oc l1).bind (fun st => List.foldlM (tempoStep oc) st l2) := by
  rw [tempoFold, tempoFold, List.foldlM_append]
  rfl

lemma tempoStep_ln1 :
    tempoStep none tStateHdr tLine1 = .ok ⟨2, [50000], [1], [some []], none⟩ := by
  rw [tLine1_chars]
  simp [tempoStep, tStateHdr, beginsWith, parseFloat?, pyStrip, rstrip, isSpace,
    takeDigits, intVal, fracVal, digitVal, TempoState.addComment]
  norm_num

lemma tempoStep_ln2 :
    tempoStep none ⟨2, [50000], [1], [some []], none⟩ tLine2 =
      .ok ⟨2, [50000, 49000], [1, 1], [some [], some []], none⟩ := by
  rw [tLine2_chars]
  simp [tempoStep, beginsWith, parseFloat?, pyStrip, rstrip, isSpace,
    takeDigits, intVal, fracVal, digitVal, TempoState.addComment]
  norm_num

lemma tempoStep_ln100000 :
    tempoStep none tStateHdr tLine100000 = .ok ⟨2, [100000], [1], [some []], none⟩ := by
  rw [tLine100000_chars]
  simp [tempoStep, tStateHdr, beginsWith, parseFloat?, pyStrip, rstrip, isSpace,
    takeDigits, intVal, fracVal, digitVal, TempoState.addComment]
  norm_num

lemma tempoFold_file1 :
    tempoFold none [tHdr1, tHdr2, tLine1] = .ok ⟨2, [50000], [1], [some []], none⟩ := by
  have h : [tHdr1, tHdr2, tLine1] = [tHdr1, tHdr2] ++ [tLine1] := rfl
  rw [h, tempoFold_append, tempoFold_hdrs]
  simp [Except.bind, List.foldlM, tempoStep_ln1]

lemma tempoFold_file2 :
    tempoFold none [tHdr1, tHdr2, tLine1, tLine2] =
      .ok ⟨2, [50000, 49000], [1, 1], [some [], some []], none⟩ := by
  have h : [tHdr1, tHdr2, tLine1, tLine2] = [tHdr1, tHdr2] ++ [tLine1, tLine2] := rfl
  rw [h, tempoFold_append, tempoFold_hdrs]
  simp [Except.bind, ok_bind, List.foldlM, tempoStep_ln1, tempoStep_ln2]

lemma tempoFold_file100000 :
    tempoFold none [tHdr1, tHdr2, tLine100000] =
      .ok ⟨2, [100000], [1], [some []], none⟩ := by
  have h : [tHdr1, tHdr2, tLine100000] = [tHdr1, tHdr2] ++ [tLine100000] := rfl
  rw [h, tempoFold_append, tempoFold_hdrs]
  simp [Except.bind, List.foldlM, tempoStep_ln100000]

lemma parseTempo_file1 :
    parseTempo none false [tHdr1, tHdr2, tLine1] = .ok tFileOk := by
  rw [parseTempo, tempoFold_file1]
  norm_num [stripZeros, tFileOk]

lemma parseTempo_file2 :
    parseTempo none false [tHdr1, tHdr2, tLine1, tLine2] =
      .ok ⟨[50000, 49000], [1, 1], [some [], some []], none⟩ := by
  rw [parseTempo, tempoFold_file2]
  norm_num [stripZeros]

lemma parseTempo_file100000 :
    parseTempo none false [tHdr1, tHdr2, tLine100000] =
      .ok ⟨[100000], [1], [some []], none⟩ := by
  rw [parseTempo, tempoFold_file100000]
  norm_num [stripZeros]

/-! The claim theorems. -/

/-- C1: the claim states that at any time strictly between two output
breakpoints (and away from discontinuity timestamps) the merged value
equals the sum of the inputs' interpolated values, and that at a
discontinuity the merged left/right values differ by the contributing
input's jump.  The code violates this: its right-side discontinuity fix
uses `searchsorted(..., side="right")` with no `- 1`, overwriting the
breakpoint after the discontinuity.  For the single input `exA`
(samples (0,0), (1,10), (1,20), (2,30) μs) the merged series is
(0,0), (1,10), (1,20), (2,20): evaluating the merge at t = 3/2 (strictly
between the breakpoints 1 and 2 and not a discontinuity) gives 20 μs,
while the sum of the inputs' interpolated values there is 25 μs.  With
the discontinuity at the final timestamp (`exB`) the fix indexes one
past the end of the array and merge raises `IndexError`. -/
theorem C1_merge_sum_violated :
    mergeClocks [exA] true = .ok ⟨[0, 1, 1, 2], [0, 10, 20, 20], [], none⟩
  ∧ (mergeClocks [exA] true).bind (fun m => evaluate m [3/2] .warn) = .ok [20]
  ∧ evaluate exA [3/2] .warn = .ok [25]
  ∧ ((20 : ℚ) ≠ 25)
  ∧ mergeClocks [exB] true = .error .indexError := by
  refine ⟨?_, ?_, ?_, by norm_num, ?_⟩
  · with_unfolding_all decide
  · with_unfolding_all decide
  · with_unfolding_all decide
  · with_unfolding_all decide

/-- C2: the claim states `merge([A])` with trimming disabled reproduces
`A` exactly.  The code violates this on `exA` (which has one
discontinuity followed by a breakpoint with a different value): the
merged corrections are [0, 10, 20, 20] μs whereas `exA`'s are
[0, 10, 20, 30] μs — the sample at MJD 2 is corrupted by the mislocated
right-side discontinuity fix. -/
theorem C2_merge_identity_violated :
    mergeClocks [exA] false = .ok ⟨[0, 1, 1, 2], [0, 10, 20, 20], [], none⟩
  ∧ exA.time = [0, 1, 1, 2] ∧ exA.clock = [0, 10, 20, 30]
  ∧ ¬ (([0, 10, 20, 20] : List ℚ) = [0, 10, 20, 30]) := by
  refine ⟨?_, rfl, rfl, by norm_num⟩
  with_unfolding_all decide

/-- C9: `write_tempo_clock_file` validates only that the obscode is a
string of length one; the spec (and the function's own error message)
require one *printable* character.  A single newline passes the code's
check (so the file body is written with an embedded newline in the site
column) even though it is not printable; strings of length ≠ 1 are
rejected as the claim says. -/
theorem C9_obscode_printability :
    obscodeCheck ['\n'] = .ok ()
  ∧ pyIsPrintable ['\n'] = false
  ∧ obscodeCheck ['a', 'b'] = .error .invalidSite
  ∧ obscodeCheck [] = .error .invalidSite := by
  with_unfolding_all decide

/-- C3: for a series satisfying the invariants (sorted times, equal
lengths), `evaluate` under `limits="error"` fails with the empty-series
error when there are no samples — regardless of the query times, showing
the empty check precedes the range check — and otherwise fails with the
out-of-range error exactly when some query time lies outside
`[times[0], times[-1]]`; under `limits="warn"` an empty series yields a
zero correction for every query time, and out-of-range query times get
the correction of the nearest endpoint (the first sample's value below
the range, the last sample's value above it). -/
theorem C3_evaluate_limits (c : ClockFile) (ts : List ℚ)
    (hs : List.Pairwise (· ≤ ·) c.time) (hl : c.clock.length = c.time.length) :
    (c.time = [] →
        evaluate c ts .error = .error .emptySeries
      ∧ evaluate c ts .warn = .ok (ts.map fun _ => 0))
  ∧ (c.time ≠ [] →
        (((∃ t ∈ ts, t < c.time.headD 0) ∨ (∃ t ∈ ts, c.time.getLastD 0 < t)) →
          evaluate c ts .error = .error .outOfRange)
      ∧ ((∀ t ∈ ts, c.time.headD 0 ≤ t ∧ t ≤ c.time.getLastD 0) →
          evaluate c ts .error = .ok (ts.map (interpAt c.time c.clock)))
      ∧ evaluate c ts .warn = .ok (ts.map (interpAt c.time c.clock))
      ∧ (∀ t, t < c.time.headD 0 → interpAt c.time c.clock t = c.clock.headD 0)
      ∧ (∀ t, c.time.getLastD 0 < t → interpAt c.time c.clock t = c.clock.getLastD 0)) := by
  constructor
  · intro h
    rw [evaluate, evaluate, if_pos (by simp [h]), if_pos (by simp [h])]
    exact ⟨rfl, rfl⟩
  · intro h
    have hne : c.time.isEmpty = false := by
      cases hc : c.time with
      | nil => exact absurd hc h
      | cons x xs => rfl
    refine ⟨?_, ?_, ?_, ?_, ?_⟩
    · intro hout
      rw [evaluate, if_neg (by simp [hne]), if_pos ?_]
      simp only [Bool.or_eq_true, List.any_eq_true, decide_eq_true_eq]
      rcases hout with ⟨t, ht, hlt⟩ | ⟨t, ht, hgt⟩
      · exact Or.inl ⟨t, ht, hlt⟩
      · exact Or.inr ⟨t, ht, hgt⟩
    · intro hin
      rw [evaluate, if_neg (by simp [hne]), if_neg ?_]
      simp only [Bool.or_eq_true, List.any_eq_true, decide_eq_true_eq, not_or,
        not_exists, not_and, not_lt]
      constructor
      · intro t ht
        exact (hin t ht).1
      · intro t ht
        exact (hin t ht).2
    · rw [evaluate, if_neg (by simp [hne])]
      by_cases hout : (ts.any (fun t => decide (t < c.time.headD 0)) ||
          ts.any (fun t => decide (c.time.getLastD 0 < t))) = true
      · rw [if_pos hout]
      · rw [if_neg hout]
    · intro t ht
      exact interpAt_left hs ht
    · intro t ht
      exact interpAt_right hs h hl ht

/-- C3 witness: the empty series under both limits on an arbitrary
query, and the two-sample series `exSmall` (samples (1,10), (2,20) μs)
evaluated at the out-of-range queries 0 and 3 — clamped to 10 and 20
under "warn", rejected under "error". -/
theorem C3_evaluate_limits_witness :
    evaluate exEmpty [5] .error = .error .emptySeries
  ∧ evaluate exEmpty [5] .warn = .ok [0]
  ∧ evaluate exSmall [0, 3] .error = .error .outOfRange
  ∧ evaluate exSmall [0, 3] .warn = .ok [10, 20]
  ∧ evaluate exSmall [1, 2] .error = .ok [10, 20] := by
  have hEmpty := C3_evaluate_limits exEmpty [5] (by simp [exEmpty]) (by simp [exEmpty])
  have hSmall1 := C3_evaluate_limits exSmall [0, 3]
    (by norm_num [exSmall]) (by simp [exSmall])
  have hSmall2 := C3_evaluate_limits exSmall [1, 2]
    (by norm_num [exSmall]) (by simp [exSmall])
  obtain ⟨he1, he2⟩ := hEmpty.1 rfl
  refine ⟨he1, he2, ?_, ?_, ?_⟩
  · exact (hSmall1.2 (by simp [exSmall])).1
      (Or.inl ⟨0, by simp, by norm_num [exSmall]⟩)
  · have h := (hSmall1.2 (by simp [exSmall])).2.2.1
    rw [h]
    have hltv := (hSmall1.2 (by simp [exSmall])).2.2.2.1 0 (by norm_num [exSmall])
    have hgtv := (hSmall1.2 (by simp [exSmall])).2.2.2.2 3 (by norm_num [exSmall])
    simp only [List.map_cons, List.map_nil, hltv, hgtv]
    simp [exSmall]
  · have h := (hSmall2.2 (by simp [exSmall])).2.1 ?_
    · rw [h]
      have h1 : interpAt exSmall.time exSmall.clock 1 = 10 := by
        with_unfolding_all decide
      have h2 : interpAt exSmall.time exSmall.clock 2 = 20 := by
        with_unfolding_all decide
      simp only [List.map_cons, List.map_nil, h1, h2]
    · intro t htm
      rcases List.mem_cons.mp htm with rfl | htm2
      · constructor
        · simp [exSmall]
        · norm_num [exSmall]
      · rcases List.mem_cons.mp htm2 with rfl | htm3
        · constructor
          · norm_num [exSmall]
          · simp [exSmall]
        · cases htm3

/-- C4: the breakpoints of a merged series.  With `trim=True`, whenever
merge returns a series, its breakpoint sequence is exactly the merged
breakpoint sequence restricted to the closed interval from the maximum
of the inputs' first timestamps to the minimum of their last timestamps
(breakpoints outside the intersection of domains are dropped); with
`trim=False` the returned breakpoint set is exactly the union of the
inputs' sample timestamps. -/
theorem C4_merge_trim_domain (clocks : List ClockFile) :
    (∀ s, mergeClocks clocks true = .ok s →
        s.time = (mergedMjds clocks).filter
          (fun t => decide (listMax (clocks.map fun c => c.time.headD 0) ≤ t) &&
                    decide (t ≤ listMin (clocks.map fun c => c.time.getLastD 0))))
  ∧ (∀ s, mergeClocks clocks false = .ok s →
        ∀ t, t ∈ s.time ↔ ∃ c ∈ clocks, t ∈ c.time) := by
  constructor
  · intro s hok
    have h := mergeClocks_ok_time clocks true s hok
    rw [if_pos rfl] at h
    rw [h]
    exact slice_eq_filter _ _ (mergedMjds clocks) (mergedMjds_sorted clocks)
  · intro s hok t
    have h := mergeClocks_ok_time clocks false s hok
    simp only [Bool.false_eq_true, if_false] at h
    rw [h]
    exact mem_mergedMjds clocks

/-- C4 witness: merging `exC` (domain [0,4]) and `exD` (domain [1,3]).
With `trim=True` the breakpoints are [1, 2, 3] (the filter of the union
breakpoints [0, 1, 2, 3, 4] to the intersection [1, 3]); with
`trim=False` every one of the union timestamps 0..4 is a breakpoint and
nothing else is. -/
theorem C4_merge_trim_domain_witness :
    mergeClocks [exC, exD] true = .ok mergedCD
  ∧ mergedCD.time = (mergedMjds [exC, exD]).filter
      (fun t => decide (listMax ([exC, exD].map fun c => c.time.headD 0) ≤ t) &&
                decide (t ≤ listMin ([exC, exD].map fun c => c.time.getLastD 0)))
  ∧ mergedCD.time = [1, 2, 3]
  ∧ mergeClocks [exC, exD] false = .ok mergedCDFull
  ∧ (∀ t, t ∈ mergedCDFull.time ↔ ∃ c ∈ [exC, exD], t ∈ c.time) := by
  have hok1 : mergeClocks [exC, exD] true = .ok mergedCD := by
    with_unfolding_all decide
  have hok2 : mergeClocks [exC, exD] false = .ok mergedCDFull := by
    with_unfolding_all decide
  refine ⟨hok1, (C4_merge_trim_domain [exC, exD]).1 mergedCD hok1, ?_, hok2,
    fun t => (C4_merge_trim_domain [exC, exD]).2 mergedCDFull hok2 t⟩
  with_unfolding_all decide

/-- C5: `read` dispatches through the format registry, which contains
exactly the names "tempo" and "tempo2": any other name fails with the
unknown-format error; when the dispatched parser succeeds, `read`
returns the parsed series if its timestamps are non-decreasing and fails
with the out-of-order error otherwise. -/
theorem C5_read_dispatch (format : String) (lines : List (List Char)) :
    ((format ≠ "tempo" ∧ format ≠ "tempo2") →
      read format lines = .error .unknownFormat)
  ∧ (∀ p r, formatsList.lookup format = some p → p lines = .ok r →
        (nondecr r.time = true → read format lines = .ok r)
      ∧ (nondecr r.time = false → read format lines = .error .outOfOrder)) := by
  constructor
  · intro h
    have h1 : (format == "tempo") = false := beq_eq_false_iff_ne.mpr h.1
    have h2 : (format == "tempo2") = false := beq_eq_false_iff_ne.mpr h.2
    rw [read, formatsList]
    simp [List.lookup, h1, h2]
  · intro p r hp hr
    constructor
    · intro hs
      rw [read]
      simp [hp, hr, hs]
    · intro hs
      rw [read]
      simp [hp, hr, hs]

/-- `add_comment` never touches the sample accumulators. -/
lemma addComment_mjds (st : TempoState) (s : List Char) :
    (st.addComment s).mjds = st.mjds := by
  rw [TempoState.addComment]
  split
  · rfl
  · rfl
  · split <;> rfl

lemma addComment_clkcorrs (st : TempoState) (s : List Char) :
    (st.addComment s).clkcorrs = st.clkcorrs := by
  rw [TempoState.addComment]
  split
  · rfl
  · rfl
  · split <;> rfl

/-- C5 witness: an unregistered format name; a well-formed one-sample
TEMPO file returned as parsed; and a two-sample TEMPO file with
decreasing MJDs rejected as out of order. -/
theorem C5_read_dispatch_witness :
    read "gps" [] = .error .unknownFormat
  ∧ read "tempo" [tHdr1, tHdr2, tLine1] = .ok tFileOk
  ∧ read "tempo" [tHdr1, tHdr2, tLine1, tLine2] = .error .outOfOrder := by
  refine ⟨?_, ?_, ?_⟩
  · exact (C5_read_dispatch "gps" []).1 ⟨by decide, by decide⟩
  · exact ((C5_read_dispatch "tempo" [tHdr1, tHdr2, tLine1]).2
      (parseTempo none false) tFileOk rfl parseTempo_file1).1
      (by with_unfolding_all decide)
  · exact ((C5_read_dispatch "tempo" [tHdr1, tHdr2, tLine1, tLine2]).2
      (parseTempo none false) ⟨[50000, 49000], [1, 1], [some [], some []], none⟩
      rfl parseTempo_file2).2
      (by with_unfolding_all decide)

/-- C10: once the TEMPO line loop has produced at least one sample,
constructing with `bogus_last_correction=True` always fails: the
discard step slices the scalar loop variable `mjd` rather than the
sample list `mjds`, raising `TypeError` instead of returning a series
with the last sample removed. -/
theorem C10_bogus_last_typeerror (oc : Option Char) (lines : List (List Char))
    (st : TempoState) (h : tempoFold oc lines = .ok st) (hne : st.mjds ≠ []) :
    parseTempo oc true lines = .error .typeError := by
  rw [parseTempo, h]
  simp [hne]

/-- C10 witness: the one-sample TEMPO file with the discard option. -/
theorem C10_bogus_last_typeerror_witness :
    parseTempo none true [tHdr1, tHdr2, tLine1] = .error .typeError := by
  exact C10_bogus_last_typeerror none [tHdr1, tHdr2, tLine1]
    ⟨2, [50000], [1], [some []], none⟩ tempoFold_file1 (by simp)

/-- C8: after the two header lines have been consumed, any non-comment
line beginning with `INCLUDE` makes the whole parse fail fast with
`NotImplementedError`, regardless of what follows it in the file — it
is neither skipped nor demoted to a comment. -/
theorem C8_include_fails (oc : Option Char) (bogus : Bool)
    (pre post : List (List Char)) (st : TempoState) (l : List Char)
    (hpre : tempoFold oc pre = .ok st) (h2 : st.seenHeader = 2)
    (hnc : beginsWith l ("#".toList) = false)
    (hinc : beginsWith l ("INCLUDE".toList) = true) :
    parseTempo oc bogus (pre ++ l :: post) = .error .notImplemented := by
  have hstep : tempoStep oc st l = .error .notImplemented := by
    rw [tempoStep, if_neg (by rw [hnc]; exact Bool.false_ne_true),
      if_neg (by simp [h2]), if_pos hinc]
  have hfold : tempoFold oc (pre ++ l :: post) = .error .notImplemented := by
    rw [tempoFold_append, hpre]
    simp [Except.bind, List.foldlM, hstep, error_bind]
  rw [parseTempo, hfold]

/-- C8 witness: an `INCLUDE` directive after the headers. -/
theorem C8_include_fails_witness :
    parseTempo none false [tHdr1, tHdr2, tLineInclude] = .error .notImplemented := by
  exact C8_include_fails none false [tHdr1, tHdr2] [] tStateHdr tLineInclude
    tempoFold_hdrs rfl
    (by rw [tLineInclude_chars]; with_unfolding_all decide)
    (by rw [tLineInclude_chars]; with_unfolding_all decide)

/-- C6 counterexample: the claim says a data line whose MJD field is
exactly 100000 is demoted to a comment, but the source tests only
`mjd > 100000`, so such a line is accepted as a sample: the parse of a
file containing it yields the one-sample series at MJD 100000 rather
than an empty series with an extra comment. -/
theorem C6_mjd_range_counterexample :
    parseTempo none false [tHdr1, tHdr2, tLine100000] =
      .ok ⟨[100000], [1], [some []], none⟩
  ∧ (([100000] : List ℚ) ≠ []) := by
  exact ⟨parseTempo_file100000, by simp⟩

/-- C6 (amended): in the TEMPO parser, after the headers and for a
non-comment, non-`INCLUDE` line with no site filter, an unparsable MJD
field demotes the line to a comment; a parsed MJD `v` with
`(v < 39000 ∧ v ≠ 0) ∨ v > 100000` likewise demotes the line; any other
parsed value — that is, `v = 0` (the sentinel) or
`39000 ≤ v ≤ 100000`, a *closed* upper endpoint — is accepted, and if
at least one correction field parses the sample `v` is appended. -/
theorem C6_mjd_range (st : TempoState) (l : List Char)
    (h2 : st.seenHeader = 2)
    (hnc : beginsWith l ("#".toList) = false)
    (hni : beginsWith l ("INCLUDE".toList) = false) :
    (parseFloat? (l.take 9) = none → tempoStep none st l = .ok (st.addComment l))
  ∧ (∀ v, parseFloat? (l.take 9) = some v → ((v < 39000 ∧ v ≠ 0) ∨ v > 100000) →
      tempoStep none st l = .ok (st.addComment l))
  ∧ (∀ v, parseFloat? (l.take 9) = some v → ¬ ((v < 39000 ∧ v ≠ 0) ∨ v > 100000) →
      (v = 0 ∨ (39000 ≤ v ∧ v ≤ 100000))
    ∧ (¬ (parseFloat? ((l.drop 9).take 12) = none ∧
          parseFloat? ((l.drop 21).take 12) = none) →
        ∃ st2, tempoStep none st l = .ok st2 ∧ st2.mjds = st.mjds ++ [v])) := by
  refine ⟨?_, ?_, ?_⟩
  · intro hm
    rw [tempoStep, if_neg (by rw [hnc]; exact Bool.false_ne_true),
      if_neg (by simp [h2]), if_neg (by rw [hni]; exact Bool.false_ne_true)]
    simp [hm]
  · intro v hm hv
    rw [tempoStep, if_neg (by rw [hnc]; exact Bool.false_ne_true),
      if_neg (by simp [h2]), if_neg (by rw [hni]; exact Bool.false_ne_true)]
    simp [hm, hv]
  · intro v hm hv
    constructor
    · rcases not_or.mp hv with ⟨hv1, hv2⟩
      by_cases hz : v = 0
      · exact Or.inl hz
      · refine Or.inr ⟨?_, not_lt.mp hv2⟩
        by_contra hlt
        exact hv1 ⟨not_le.mp hlt, hz⟩
    · intro hcc
      rw [tempoStep, if_neg (by rw [hnc]; exact Bool.false_ne_true),
        if_neg (by simp [h2]), if_neg (by rw [hni]; exact Bool.false_ne_true)]
      simp [hm, hv, hcc, addComment_mjds]

/-- C6 witness: `tLine100000` (MJD exactly 100000, accepted),
`tLineBig` (MJD 100000.5, demoted), `tLineSmall` (MJD 5, demoted), and
the zero sentinel handled through the third conjunct's range fact. -/
theorem C6_mjd_range_witness :
    (∃ st2, tempoStep none tStateHdr tLine100000 = .ok st2 ∧ st2.mjds = [(100000 : ℚ)])
  ∧ tempoStep none tStateHdr tLineBig = .ok (tStateHdr.addComment tLineBig)
  ∧ tempoStep none tStateHdr tLineSmall = .ok (tStateHdr.addComment tLineSmall) := by
  have hthm100000 := C6_mjd_range tStateHdr tLine100000 rfl
    (by rw [tLine100000_chars]; with_unfolding_all decide)
    (by rw [tLine100000_chars]; with_unfolding_all decide)
  have hthmBig := C6_mjd_range tStateHdr tLineBig rfl
    (by rw [tLineBig_chars]; with_unfolding_all decide)
    (by rw [tLineBig_chars]; with_unfolding_all decide)
  have hthmSmall := C6_mjd_range tStateHdr tLineSmall rfl
    (by rw [tLineSmall_chars]; with_unfolding_all decide)
    (by rw [tLineSmall_chars]; with_unfolding_all decide)
  have hm100000 : parseFloat? (tLine100000.take 9) = some 100000 := by
    rw [tLine100000_chars]
    simp [parseFloat?, pyStrip, rstrip, isSpace, takeDigits, intVal, fracVal, digitVal]
    norm_num
  have hmBig : parseFloat? (tLineBig.take 9) = some (100000.5 : ℚ) := by
    rw [tLineBig_chars]
    simp [parseFloat?, pyStrip, rstrip, isSpace, takeDigits, intVal, fracVal, digitVal]
    norm_num
  have hmSmall : parseFloat? (tLineSmall.take 9) = some 5 := by
    rw [tLineSmall_chars]
    simp [parseFloat?, pyStrip, rstrip, isSpace, takeDigits, intVal, fracVal, digitVal]
  refine ⟨?_, ?_, ?_⟩
  · have hc1 : parseFloat? ((tLine100000.drop 9).take 12) = some 1 := by
      rw [tLine100000_chars]
      simp [parseFloat?, pyStrip, rstrip, isSpace, takeDigits, intVal, fracVal, digitVal]
    have hcc : ¬ (parseFloat? ((tLine100000.drop 9).take 12) = none ∧
        parseFloat? ((tLine100000.drop 21).take 12) = none) := by
      rw [hc1]
      simp
    obtain ⟨st2, hst2, hmj⟩ := (hthm100000.2.2 100000 hm100000 (by norm_num)).2 hcc
    exact ⟨st2, hst2, by rw [hmj]; simp [tStateHdr]⟩
  · exact hthmBig.2.1 (100000.5 : ℚ) hmBig (Or.inr (by norm_num))
  · exact hthmSmall.2.1 5 hmSmall (Or.inl ⟨by norm_num, by norm_num⟩)

/-- C7: for an accepted TEMPO data line (after the headers, no site
filter, parsable MJD in range, at least one parsable correction field),
the stored correction is `(second field) − (first field)` where the
first field is first reduced by 818.8 exactly when its parsed value
exceeds 800.0; missing fields default to 0. -/
theorem C7_stored_correction (st : TempoState) (l : List Char)
    (h2 : st.seenHeader = 2)
    (hnc : beginsWith l ("#".toList) = false)
    (hni : beginsWith l ("INCLUDE".toList) = false)
    (v : ℚ) (c1? c2? : Option ℚ)
    (hm : parseFloat? (l.take 9) = some v)
    (hv : ¬ ((v < 39000 ∧ v ≠ 0) ∨ v > 100000))
    (hc1 : parseFloat? ((l.drop 9).take 12) = c1?)
    (hc2 : parseFloat? ((l.drop 21).take 12) = c2?)
    (hcc : ¬ (c1? = none ∧ c2? = none)) :
    ∃ st2, tempoStep none st l = .ok st2 ∧
      st2.clkcorrs = st.clkcorrs ++
        [c2?.getD 0 - (if c1?.getD 0 > 800 then c1?.getD 0 - (818.8 : ℚ) else c1?.getD 0)] := by
  rw [tempoStep, if_neg (by rw [hnc]; exact Bool.false_ne_true),
    if_neg (by simp [h2]), if_neg (by rw [hni]; exact Bool.false_ne_true)]
  simp [hm, hc1, hc2, hv, hcc, addComment_clkcorrs]

/-- C7 witness: the line with first field 900.0 and second field 0.0
stores exactly −81.2 microseconds (the legacy 818.8 offset applies since
900 > 800). -/
theorem C7_stored_correction_witness :
    ∃ st2, tempoStep none tStateHdr tLine900 = .ok st2 ∧
      st2.clkcorrs = [(-81.2 : ℚ)] := by
  have hm : parseFloat? (tLine900.take 9) = some 50000 := by
    rw [tLine900_chars]
    simp [parseFloat?, pyStrip, rstrip, isSpace, takeDigits, intVal, fracVal, digitVal]
    norm_num
  have hc1 : parseFloat? ((tLine900.drop 9).take 12) = some 900 := by
    rw [tLine900_chars]
    simp [parseFloat?, pyStrip, rstrip, isSpace, takeDigits, intVal, fracVal, digitVal]
    norm_num
  have hc2 : parseFloat? ((tLine900.drop 21).take 12) = some 0 := by
    rw [tLine900_chars]
    simp [parseFloat?, pyStrip, rstrip, isSpace, takeDigits, intVal, fracVal, digitVal]
  obtain ⟨st2, hst2, hcor⟩ := C7_stored_correction tStateHdr tLine900 rfl
    (by rw [tLine900_chars]; with_unfolding_all decide)
    (by rw [tLine900_chars]; with_unfolding_all decide)
    50000 (some 900) (some 0) hm (by norm_num) hc1 hc2 (by simp)
  refine ⟨st2, hst2, ?_⟩
  rw [hcor]
  norm_num [tStateHdr]

end PintClock
